import Mathlib

/-!
Shallow embedding of the Minos CSL Utility (`CSL_Utility.py`, v0.7): the
contest-record data model, the reconciliation engine
(`ContestLogManager.add_or_merge_record`), the four format loaders, the CSL
writer, and theorems settling the specification claims.

Python strings are modelled as `List Char` (`Str`), which matches Python's
code-point indexing.  `str.upper`/`str.lower` are modelled with
`Char.toUpper`/`Char.toLower` (exact on ASCII, the repertoire of the data
the program manipulates); `str.strip()` uses the standard whitespace set.
-/

abbrev Str := List Char

/-- Python `str.strip()` whitespace set: space, tab, newline, carriage
return, vertical tab, form feed. -/
def pyIsSpace (c : Char) : Bool :=
  c == ' ' || c == '\t' || c == '\n' || c == '\r' || c == '\x0b' || c == '\x0c'

/-- Python `str.strip()`. -/
def pyStrip (s : Str) : Str :=
  ((s.dropWhile pyIsSpace).reverse.dropWhile pyIsSpace).reverse

/-- Python `str.upper()` (ASCII repertoire). -/
def pyUpper (s : Str) : Str := s.map Char.toUpper

/-- Python `str.lower()` (ASCII repertoire). -/
def pyLower (s : Str) : Str := s.map Char.toLower

/-- Python `str.split(sep)` for a one-character separator: splits at every
occurrence; `"".split(sep) == [""]`. -/
def splitOnChar (sep : Char) : Str → List Str
  | [] => [[]]
  | c :: rest =>
    let r := splitOnChar sep rest
    if c == sep then [] :: r
    else
      match r with
      | [] => [[c]]
      | f :: fs => (c :: f) :: fs

/-- Python `s.startswith(p)`. -/
def pyStartsWith (s p : Str) : Bool := p.isPrefixOf s

/-- Helper for Python `str.find`: lowest index `≥ i` at which `sub` occurs. -/
def strFindSubAux (sub : Str) : Str → Nat → Option Nat
  | [], i => if sub.isPrefixOf ([] : Str) then some i else none
  | s@(_ :: rest), i =>
    if sub.isPrefixOf s then some i else strFindSubAux sub rest (i + 1)

/-- Python `str.find(sub)` (`none` models Python's `-1`). -/
def strFindSub (s sub : Str) : Option Nat := strFindSubAux sub s 0

/-- Python `str.find(c, start)` for a single-character needle. -/
def strFindCharFrom (s : Str) (c : Char) (start : Nat) : Option Nat :=
  (strFindSubAux [c] (s.drop start) 0).map (fun j => start + j)

/-- Python `sub in s` (substring containment). -/
def strContains (s sub : Str) : Bool := (strFindSub s sub).isSome

/-- `ContestRecord` (CSL_Utility.py lines 30-48): four free-text fields. -/
structure ContestRecord where
  callsign : Str
  locator : Str := []
  exchange : Str := []
  comment : Str := []
deriving DecidableEq, Repr, Inhabited

namespace ContestRecord

/-- `ContestRecord.to_list`. -/
def to_list (r : ContestRecord) : List Str :=
  [r.callsign, r.locator, r.exchange, r.comment]

/-- `ContestRecord.from_list`: pads missing trailing fields with empty
strings.  `none` models both the `ValueError` raised on empty data and the
`TypeError` Python raises when more than four positional fields arrive. -/
def from_list : List Str → Option ContestRecord
  | [] => none
  | [a] => some ⟨a, [], [], []⟩
  | [a, b] => some ⟨a, b, [], []⟩
  | [a, b, c] => some ⟨a, b, c, []⟩
  | [a, b, c, d] => some ⟨a, b, c, d⟩
  | _ => none

/-- `ContestRecord.has_more_than_callsign`. -/
def has_more_than_callsign (r : ContestRecord) : Bool :=
  !(pyStrip r.locator).isEmpty || !(pyStrip r.exchange).isEmpty ||
    !(pyStrip r.comment).isEmpty

end ContestRecord

/-- `ContestRecord.__eq__` (lines 50-56): value equality, case-insensitive
on callsign, whitespace-trimmed and case-sensitive on the other fields. -/
def recEq (a b : ContestRecord) : Bool :=
  pyUpper a.callsign == pyUpper b.callsign &&
    pyStrip a.locator == pyStrip b.locator &&
    pyStrip a.exchange == pyStrip b.exchange &&
    pyStrip a.comment == pyStrip b.comment

/-- `MergeMode` (lines 19-22). -/
inductive MergeMode where
  | KEEP_ALL
  | KEEP_RECENT
  | SMART_MERGE
deriving DecidableEq, Repr

/-- `ContestLogManager` state (lines 64-70).  The observer callback list is
abstracted by `notifyCount`: `notify_observers` invokes every registered
callback exactly once, so one notification event is one increment. -/
structure ContestLogManager where
  records : List ContestRecord
  current_file : Option Str
  merge_mode : MergeMode
  remove_callsign_only : Bool
  has_unsaved_changes : Bool
  notifyCount : Nat
deriving DecidableEq, Repr

/-- `ContestLogManager.__init__`. -/
def initManager : ContestLogManager :=
  { records := []
    current_file := none
    merge_mode := .KEEP_ALL
    remove_callsign_only := false
    has_unsaved_changes := false
    notifyCount := 0 }

/-- The merge-matching test of line 401:
`r.callsign.upper() == new_record.callsign.upper()`. -/
def callsignMatches (new_record r : ContestRecord) : Bool :=
  pyUpper r.callsign == pyUpper new_record.callsign

/-- The merged record built in the Smart-Merge branch (lines 415-420):
per field, the incoming value when non-blank after trimming, else the
existing value; the existing callsign with its original casing. -/
def smartMerged (existing_record new_record : ContestRecord) : ContestRecord :=
  { callsign := existing_record.callsign
    locator :=
      if (pyStrip new_record.locator).isEmpty then existing_record.locator
      else new_record.locator
    exchange :=
      if (pyStrip new_record.exchange).isEmpty then existing_record.exchange
      else new_record.exchange
    comment :=
      if (pyStrip new_record.comment).isEmpty then existing_record.comment
      else new_record.comment }

/-- `ContestLogManager.add_or_merge_record` (lines 392-426).  Python's
`list.remove`, `list.index` and `in` compare with `ContestRecord.__eq__`,
hence `recEq` inside `eraseP`, `findIdx` and `any`. -/
def add_or_merge_record (self : ContestLogManager) (new_record : ContestRecord) :
    ContestLogManager :=
  if new_record.callsign.isEmpty then self
  else if self.remove_callsign_only && !new_record.has_more_than_callsign then self
  else
    let existing_records := self.records.filter (callsignMatches new_record)
    let records' :=
      match self.merge_mode with
      | .KEEP_ALL =>
        if self.records.any (fun r => recEq r new_record) then self.records
        else self.records ++ [new_record]
      | .KEEP_RECENT =>
        (match existing_records.head? with
         | some e => self.records.eraseP (fun r => recEq r e)
         | none => self.records) ++ [new_record]
      | .SMART_MERGE =>
        match existing_records.head? with
        | some e =>
          self.records.set (self.records.findIdx (fun r => recEq r e))
            (smartMerged e new_record)
        | none => self.records ++ [new_record]
    { self with
      records := records'
      has_unsaved_changes := true
      notifyCount := self.notifyCount + 1 }

/-- `ContestLogManager.reset` (lines 437-442). -/
def resetManager (self : ContestLogManager) : ContestLogManager :=
  { self with
    records := []
    has_unsaved_changes :=
      if self.records.isEmpty then self.has_unsaved_changes else true
    notifyCount := self.notifyCount + 1 }

/-- `set_merge_mode` (lines 382-385). -/
def set_merge_mode (self : ContestLogManager) (mode : MergeMode) :
    ContestLogManager :=
  { self with merge_mode := mode }

/-- `set_remove_callsign_only` (lines 387-390). -/
def set_remove_callsign_only (self : ContestLogManager) (value : Bool) :
    ContestLogManager :=
  { self with remove_callsign_only := value }

/-- The engine's mutating calls, for reachability invariants. -/
inductive MgrEvent where
  | add (r : ContestRecord)
  | setMode (mode : MergeMode)
  | setFilter (value : Bool)
  | reset

/-- One engine call. -/
def applyEvent (m : ContestLogManager) : MgrEvent → ContestLogManager
  | .add r => add_or_merge_record m r
  | .setMode mode => set_merge_mode m mode
  | .setFilter v => set_remove_callsign_only m v
  | .reset => resetManager m

/-- A store that starts empty and is driven only through the engine. -/
def runEvents (evts : List MgrEvent) : ContestLogManager :=
  evts.foldl applyEvent initManager

/-- A store that starts empty and is mutated only through the reconciliation
entry point under the Keep-All policy; each step may first toggle the
callsign-only filter, then feeds one record. -/
def runKeepAll (evts : List (Bool × ContestRecord)) : ContestLogManager :=
  evts.foldl
    (fun m e => add_or_merge_record (set_remove_callsign_only m e.1) e.2)
    initManager

/-! ## CSL writer and reader (lines 341-380)

Files are read in Python text mode, which translates `\r\n` and lone `\r`
to `\n` (universal newlines) before `readlines` splits keeping the ends.
`csv.reader(lines)` over the `readlines` list is character-for-character
the same as running the csv state machine over the concatenation of the
lines, which is how `csvParseContent` is phrased; the machine implements
the default dialect (delimiter `,`, quotechar `"`, doublequote, non-strict,
`QUOTE_MINIMAL`). -/

/-- Text-mode universal-newline translation. -/
def universalNewlines : Str → Str
  | [] => []
  | '\r' :: '\n' :: rest => '\n' :: universalNewlines rest
  | '\r' :: rest => '\n' :: universalNewlines rest
  | c :: rest => c :: universalNewlines rest

/-- `f.readlines()`: split keeping the line ends. -/
def splitLinesKeepEnds : Str → Str → List Str
  | [], acc => if acc.isEmpty then [] else [acc.reverse]
  | '\n' :: rest, acc => (acc.reverse ++ ['\n']) :: splitLinesKeepEnds rest []
  | c :: rest, acc => splitLinesKeepEnds rest (c :: acc)

/-- `f.readlines()` on the translated content. -/
def pyReadLines (content : Str) : List Str :=
  splitLinesKeepEnds (universalNewlines content) []

/-- csv reader states: start of a row, start of a field after a delimiter,
inside an unquoted field, inside a quoted field, just after a quote while
inside a quoted field. -/
inductive CsvState where
  | rowStart
  | fieldStart
  | inField
  | inQuoted
  | afterQuote
deriving DecidableEq

/-- The csv state machine (default dialect, non-strict).  `fields` and
`cur` are accumulated in reverse. -/
def csvParseAux : Str → CsvState → List Str → Str → List (List Str)
  | [], st, fields, cur =>
    match st with
    | .rowStart => []
    | _ => [(cur.reverse :: fields).reverse]
  | c :: rest, st, fields, cur =>
    match st with
    | .rowStart =>
      if c == '\n' then [] :: csvParseAux rest .rowStart [] []
      else if c == ',' then csvParseAux rest .fieldStart [cur.reverse] []
      else if c == '"' then csvParseAux rest .inQuoted fields cur
      else csvParseAux rest .inField fields (c :: cur)
    | .fieldStart =>
      if c == '\n' then
        (cur.reverse :: fields).reverse :: csvParseAux rest .rowStart [] []
      else if c == ',' then csvParseAux rest .fieldStart (cur.reverse :: fields) []
      else if c == '"' then csvParseAux rest .inQuoted fields cur
      else csvParseAux rest .inField fields (c :: cur)
    | .inField =>
      if c == '\n' then
        (cur.reverse :: fields).reverse :: csvParseAux rest .rowStart [] []
      else if c == ',' then csvParseAux rest .fieldStart (cur.reverse :: fields) []
      else csvParseAux rest .inField fields (c :: cur)
    | .inQuoted =>
      if c == '"' then csvParseAux rest .afterQuote fields cur
      else csvParseAux rest .inQuoted fields (c :: cur)
    | .afterQuote =>
      if c == '"' then csvParseAux rest .inQuoted fields ('"' :: cur)
      else if c == '\n' then
        (cur.reverse :: fields).reverse :: csvParseAux rest .rowStart [] []
      else if c == ',' then csvParseAux rest .fieldStart (cur.reverse :: fields) []
      else csvParseAux rest .inField fields (c :: cur)

/-- `csv.reader` over the lines of `content`. -/
def csvParseContent (content : Str) : List (List Str) :=
  csvParseAux content .rowStart [] []

/-- `csv.writer` QUOTE_MINIMAL: quote a field containing the delimiter, the
quote character, or a line-terminator character, doubling inner quotes. -/
def csvQuoteField (f : Str) : Str :=
  if f.any (fun c => c == ',' || c == '"' || c == '\r' || c == '\n') then
    '"' :: (f.flatMap fun c => if c == '"' then ['"', '"'] else [c]) ++ ['"']
  else f

/-- One `csv.writer` row: comma-joined fields terminated by `\r\n`. -/
def csvWriteRow (fields : List Str) : Str :=
  (List.intercalate [','] (fields.map csvQuoteField)) ++ ['\r', '\n']

/-- `VERSION = "0.7"`. -/
def VERSION : Str := "0.7".data

/-- `ContestLogManager.HEADER` (line 61). -/
def HEADER : Str :=
  "# Minos CSL Utility by G4CTP v".data ++ VERSION ++
    "\n# <Callsign>, <Locator>, <Exchange>, <Comment>".data

/-- The bytes `save_csl` writes (lines 370-376): header plus one csv row
per stored record, fields in callsign, locator, exchange, comment order. -/
def save_csl_content (self : ContestLogManager) : Str :=
  HEADER ++ ['\n'] ++
    (self.records.map (fun r => csvWriteRow r.to_list)).flatten

/-- Load-time failure modes (section 7 of the spec; in the source these are
`FileNotFoundError`, `ValueError`s and exceptions re-raised as `IOError`,
distinguished by their messages). -/
inductive LoadErr where
  | notFound
  | unsupported
  | noStream
  | xmlErr
  | noRecords
  | badRow
  | attrErr
deriving DecidableEq, Repr

/-- The loop of `load_csl` (lines 361-368): every row counts toward
progress, empty rows are skipped, and the progress callback fires after the
row is ingested.  A row of five or more fields aborts with the `TypeError`
from `from_list`. -/
def cslLoop (m : ContestLogManager) (rows : List (List Str))
    (total : ℚ) (processed : Nat) :
    ContestLogManager × List ℚ × Option LoadErr :=
  match rows with
  | [] => (m, [], none)
  | row :: rest =>
    let processed := processed + 1
    let prog : ℚ := (processed : ℚ) / total * 100
    if row.isEmpty then
      let (m', ps, e) := cslLoop m rest total processed
      (m', prog :: ps, e)
    else
      match ContestRecord.from_list (row.map pyStrip) with
      | none => (m, [], some .badRow)
      | some r =>
        let m' := add_or_merge_record m r
        let (m'', ps, e) := cslLoop m' rest total processed
        (m'', prog :: ps, e)

/-- `ContestLogManager.load_csl` (lines 341-368): the first row, when
present and not `#`-prefixed in its first field, is ingested as data,
otherwise discarded as header; every later non-empty row is ingested. -/
def load_csl (m : ContestLogManager) (content : Str) :
    ContestLogManager × List ℚ × Option LoadErr :=
  let lines := pyReadLines content
  let total : ℚ := (lines.length : ℚ)
  match csvParseContent (universalNewlines content) with
  | [] => (m, [], none)
  | first_line :: rest =>
    if !first_line.isEmpty && !(pyStartsWith (first_line.headD []) ['#']) then
      match ContestRecord.from_list (first_line.map pyStrip) with
      | none => (m, [], some .badRow)
      | some r =>
        let m1 := add_or_merge_record m r
        let (m', ps, e) := cslLoop m1 rest total 1
        (m', ((1 : ℚ) / total * 100) :: ps, e)
    else
      cslLoop m rest total 0

/-! ## EDI loader (lines 112-180)

Two passes over the same `readlines` buffer: pass 1 collects the
callsign-to-comment map from the `[Remarks]` section, pass 2 ingests the
`[QSORecords;` section.  The comments dictionary is an association list in
which a later insertion for the same key overwrites the earlier one. -/

/-- `dict[k] = v` with overwrite. -/
def dictInsert (d : List (Str × Str)) (k v : Str) : List (Str × Str) :=
  if d.any (fun p => p.1 == k) then
    d.map (fun p => if p.1 == k then (k, v) else p)
  else d ++ [(k, v)]

/-- `dict.get(k, default)`. -/
def dictGetD (d : List (Str × Str)) (k dflt : Str) : Str :=
  match d.find? (fun p => p.1 == k) with
  | some p => p.2
  | none => dflt

/-- The per-line section/state update of the first EDI pass (lines
135-148): enter the remarks section on `[Remarks]`, leave it on
`[QSORecords;`, and inside it record `fields[2] → fields[3]` for lines
with at least four `;`-separated fields. -/
def ediPass1Update (comments : List (Str × Str)) (in_remarks : Bool)
    (line : Str) : List (Str × Str) × Bool :=
  if pyStartsWith line "[Remarks]".data then (comments, true)
  else if pyStartsWith line "[QSORecords;".data then (comments, false)
  else if in_remarks && !line.isEmpty then
    (if 4 ≤ (splitOnChar ';' line).length then
      dictInsert comments (pyStrip ((splitOnChar ';' line).getD 2 []))
        (pyStrip ((splitOnChar ';' line).getD 3 []))
     else comments, in_remarks)
  else (comments, in_remarks)

/-- First EDI pass (lines 128-148): the comments map, plus the progress
values `processed / (total_lines * 2) * 100` delivered one per line. -/
def ediPass1 (lines : List Str) (totalLines processed : Nat)
    (comments : List (Str × Str)) (in_remarks : Bool) :
    List (Str × Str) × List ℚ :=
  match lines with
  | [] => (comments, [])
  | l :: ls =>
    ((ediPass1 ls totalLines (processed + 1)
        (ediPass1Update comments in_remarks (pyStrip l)).1
        (ediPass1Update comments in_remarks (pyStrip l)).2).1,
      ((processed + 1 : ℕ) : ℚ) / ((totalLines : ℚ) * 2) * 100 ::
        (ediPass1 ls totalLines (processed + 1)
          (ediPass1Update comments in_remarks (pyStrip l)).1
          (ediPass1Update comments in_remarks (pyStrip l)).2).2)

/-- The per-line ingestion of the second EDI pass (lines 168-180): inside
the QSO section, a non-empty line with at least ten `;`-separated fields
becomes a record (callsign `fields[2]`, locator `fields[9]`, exchange
`fields[8]`, comment from the remarks map). -/
def ediPass2Line (m : ContestLogManager) (comments : List (Str × Str))
    (in_qso_section : Bool) (line : Str) : ContestLogManager :=
  if in_qso_section && !line.isEmpty then
    if 10 ≤ (splitOnChar ';' line).length then
      add_or_merge_record m
        { callsign := pyStrip ((splitOnChar ';' line).getD 2 [])
          locator := pyStrip ((splitOnChar ';' line).getD 9 [])
          exchange := pyStrip ((splitOnChar ';' line).getD 8 [])
          comment :=
            dictGetD comments (pyStrip ((splitOnChar ';' line).getD 2 [])) [] }
    else m
  else m

/-- Second EDI pass (lines 155-180): the progress callback fires before
the section markers are examined, so the `[END;` line still reports
progress before the loop breaks. -/
def ediPass2 (m : ContestLogManager) (lines : List Str)
    (totalLines processed : Nat) (comments : List (Str × Str))
    (in_qso_section : Bool) : ContestLogManager × List ℚ :=
  match lines with
  | [] => (m, [])
  | l :: ls =>
    if pyStartsWith (pyStrip l) "[QSORecords;".data then
      ((ediPass2 m ls totalLines (processed + 1) comments true).1,
        min (50 + ((processed + 1 : ℕ) : ℚ) / ((totalLines : ℚ) * 2) * 100)
            100 ::
          (ediPass2 m ls totalLines (processed + 1) comments true).2)
    else if pyStartsWith (pyStrip l) "[END;".data then
      (m,
        [min (50 + ((processed + 1 : ℕ) : ℚ) / ((totalLines : ℚ) * 2) * 100)
          100])
    else
      ((ediPass2 (ediPass2Line m comments in_qso_section (pyStrip l)) ls
          totalLines (processed + 1) comments in_qso_section).1,
        min (50 + ((processed + 1 : ℕ) : ℚ) / ((totalLines : ℚ) * 2) * 100)
            100 ::
          (ediPass2 (ediPass2Line m comments in_qso_section (pyStrip l)) ls
            totalLines (processed + 1) comments in_qso_section).2)

/-- `ContestLogManager.load_edi` (lines 112-180). -/
def load_edi (m : ContestLogManager) (content : Str) :
    ContestLogManager × List ℚ :=
  let lines := pyReadLines content
  let (comments, ps1) := ediPass1 lines lines.length 0 [] false
  let (m', ps2) := ediPass2 m lines lines.length 0 comments false
  (m', ps1 ++ ps2)

/-- Sanity vector from the spec: a remarks line for `G4CTP` followed by a
ten-field QSO row yields one record carrying the remark as comment. -/
theorem edi_spec_vector :
    (load_edi initManager
      ("[Remarks]\nCALL;X;G4CTP;Nice contact\n[QSORecords;1]\n" ++
        "a;b;G4CTP;d;e;f;g;h;59001;IO91AA\n[END;x]\n").data).1.records
      = [⟨"G4CTP".data, "IO91AA".data, "59001".data, "Nice contact".data⟩] := by
  decide

/-! ## ADIF loader (lines 182-219 and 444-459) -/

/-- Digit run to a number. -/
def parseDigitsAux : Str → Nat → Nat
  | [], acc => acc
  | c :: rest, acc => parseDigitsAux rest (acc * 10 + (c.toNat - '0'.toNat))

/-- Python `int(s)` restricted to an optional sign, ASCII digits and
surrounding whitespace (`none` models the `ValueError`). -/
def pyInt (s : Str) : Option ℤ :=
  let t := pyStrip s
  match t with
  | '+' :: ds =>
    if !ds.isEmpty && ds.all Char.isDigit then some (parseDigitsAux ds 0) else none
  | '-' :: ds =>
    if !ds.isEmpty && ds.all Char.isDigit then some (-(parseDigitsAux ds 0 : ℤ))
    else none
  | ds =>
    if !ds.isEmpty && ds.all Char.isDigit then some (parseDigitsAux ds 0) else none

/-- Python slice `s[start:stop]` for `start ≥ 0` and an integer `stop`
(negative `stop` counts from the end). -/
def pySlice (s : Str) (start : Nat) (stop : ℤ) : Str :=
  let stopN : Nat := if stop < 0 then ((s.length : ℤ) + stop).toNat else stop.toNat
  (s.take stopN).drop start

/-- `extract_adif_field` (lines 444-459): length-prefixed
`<NAME:LEN[:TYPE]>` tag convention, case-insensitive name, soft failure to
the empty string. -/
def extract_adif_field (qso : Str) (field : Str) : Str :=
  match strFindSub (pyUpper qso) ('<' :: pyUpper field) with
  | none => []
  | some field_start =>
    match strFindCharFrom qso '>' field_start with
    | none => []
    | some field_end =>
      match splitOnChar ':' ((qso.take field_end).drop field_start) with
      | _ :: lenTok :: _ =>
        match pyInt lenTok with
        | none => []
        | some len =>
          let value_start := field_end + 1
          pyStrip (pySlice qso value_start ((value_start : ℤ) + len))
      | _ => []

/-- `pyStrip` never lengthens a string. -/
theorem pyStrip_length_le (s : Str) : (pyStrip s).length ≤ s.length := by
  have h1 : (s.dropWhile pyIsSpace).length ≤ s.length :=
    (List.dropWhile_sublist pyIsSpace).length_le
  have h2 :
      ((s.dropWhile pyIsSpace).reverse.dropWhile pyIsSpace).length
        ≤ (s.dropWhile pyIsSpace).reverse.length :=
    (List.dropWhile_sublist pyIsSpace).length_le
  simpa [pyStrip] using le_trans (by simpa using h2) (by simpa using h1)

/-- The loop of `load_adif` (lines 198-219): locate the next `<EOR>`, take
the text before it as one record body, advance past it, report progress,
extract the four fields and ingest the record when the callsign is
non-empty.  The first argument is recursion fuel: each iteration strictly
shrinks `qsos` (it drops at least the five characters of `<EOR>`), so any
fuel above `qsos.length` makes the cutoff branch unreachable. -/
def adifLoop : Nat → ContestLogManager → Str → ℚ → Nat →
    ContestLogManager × List ℚ
  | 0, m, _, _, _ => (m, [])
  | fuel + 1, m, qsos, total, processed =>
    if (pyStrip qsos).isEmpty then (m, [])
    else
      match strFindSub qsos "<EOR>".data with
      | none => (m, [])
      | some eor =>
        let qso := pyStrip (qsos.take eor)
        let rest := pyStrip (qsos.drop (eor + 5))
        let processed := processed + eor + 5
        let prog : ℚ := min ((processed : ℚ) / total * 100) 100
        let record : ContestRecord :=
          { callsign := extract_adif_field qso "CALL".data
            locator := extract_adif_field qso "GRIDSQUARE".data
            exchange := extract_adif_field qso "QTH".data
            comment := extract_adif_field qso "COMMENT".data }
        let m' :=
          if record.callsign.isEmpty then m else add_or_merge_record m record
        let (m'', ps) := adifLoop fuel m' rest total processed
        (m'', prog :: ps)

/-- `ContestLogManager.load_adif` (lines 182-219): everything after the
first `<EOH>` (when present) is scanned; `total_length` is fixed before the
loop starts. -/
def load_adif (m : ContestLogManager) (content0 : Str) :
    ContestLogManager × List ℚ :=
  let content := universalNewlines content0
  let qsos :=
    match strFindSub content "<EOH>".data with
    | some i => content.drop (i + 5)
    | none => content
  adifLoop (qsos.length + 1) m qsos ((qsos.length : ℚ)) 0

/-- Sanity vector from the spec: `<CALL:5>G4CTP<COMMENT:4>Test<EOR>`
yields one record with callsign `G4CTP` and comment `Test`. -/
theorem adif_spec_vector :
    (load_adif initManager "<CALL:5>G4CTP<COMMENT:4>Test<EOR>".data).1.records
      = [⟨"G4CTP".data, [], [], "Test".data⟩] := by decide

/-! ## Minos loader (lines 221-339)

`ET.fromstring` is an external library; its output is modelled by
`XmlNode` (tag with the ElementTree namespace braces, optional text, child
list in document order), and the parse itself by an `Option XmlNode`
oracle supplied alongside the raw content.  Everything after the parse —
the `.//iq` search, the fixed child-path descent, the member-map
collection and the record construction — is translated from the source. -/

/-- An ElementTree element. -/
inductive XmlNode where
  | elem (tag : Str) (text : Option Str) (children : List XmlNode)

/-- Element tag. -/
def XmlNode.tag : XmlNode → Str
  | .elem t _ _ => t

/-- Element text. -/
def XmlNode.text : XmlNode → Option Str
  | .elem _ t _ => t

/-- Element children. -/
def XmlNode.children : XmlNode → List XmlNode
  | .elem _ _ cs => cs

mutual
/-- Proper descendants of a node, in document order
(`root.findall(".//tag")` searches these). -/
def XmlNode.descendants : XmlNode → List XmlNode
  | .elem _ _ cs => xmlDescList cs
/-- Helper: each node of the list followed by its descendants. -/
def xmlDescList : List XmlNode → List XmlNode
  | [] => []
  | c :: cs => c :: (XmlNode.descendants c ++ xmlDescList cs)
end

/-- `node.find(tag)`: first direct child with the tag. -/
def XmlNode.findChild (n : XmlNode) (t : Str) : Option XmlNode :=
  n.children.find? (fun c => c.tag == t)

/-- `node.findall(tag)` for a plain tag: all direct children with it. -/
def XmlNode.findallChildren (n : XmlNode) (t : Str) : List XmlNode :=
  n.children.filter (fun c => c.tag == t)

/-- `node.findall("a/b/…")`: document-order matches of a child path. -/
def xmlFindallPath (n : XmlNode) : List Str → List XmlNode
  | [] => [n]
  | t :: ts => (n.findallChildren t).flatMap (fun c => xmlFindallPath c ts)

/-- `node.find("a/b/…")`. -/
def xmlFindPath (n : XmlNode) (p : List Str) : Option XmlNode :=
  (xmlFindallPath n p).head?

/-- `ns = "{minos:iq:rpc}"` (line 259). -/
def nsRpc : Str := "\x7bminos:iq:rpc\x7d".data

/-- `ns_client = "{minos:client}"` (line 260). -/
def nsClient : Str := "\x7bminos:client\x7d".data

/-- A dictionary with `Optional` keys and values (`name_elem.text` and
`child.text` may both be `None`). -/
def xmlDictInsert (d : List (Option Str × Option Str)) (k v : Option Str) :
    List (Option Str × Option Str) :=
  if d.any (fun p => p.1 == k) then
    d.map (fun p => if p.1 == k then (k, v) else p)
  else d ++ [(k, v)]

/-- `qso_data.get(k)`: `none` both when the key is absent and when the
stored value is `None`. -/
def xmlDictGet (d : List (Option Str × Option Str)) (k : Str) : Option Str :=
  match d.find? (fun p => p.1 == some k) with
  | some p => p.2
  | none => none

/-- `'k' in qso_data`. -/
def xmlDictHas (d : List (Option Str × Option Str)) (k : Str) : Bool :=
  d.any (fun p => p.1 == some k)

/-- The member-map collection (lines 298-305): for each `member` child with
both a `name` and a `value`, bind the name's text to the text of the
value's first child element. -/
def collectQsoData (params : XmlNode) : List (Option Str × Option Str) :=
  (params.findallChildren (nsRpc ++ "member".data)).foldl
    (fun d member =>
      match member.findChild (nsRpc ++ "name".data),
          member.findChild (nsRpc ++ "value".data) with
      | some name_elem, some value_elem =>
        match value_elem.children.head? with
        | some child => xmlDictInsert d name_elem.text child.text
        | none => d
      | _, _ => d)
    []

/-- Python truthiness of a `str | None` value. -/
def pyTruthy : Option Str → Bool
  | none => false
  | some s => !s.isEmpty

/-- Per-`iq` processing (lines 280-324): descend `query` → `methodCall`,
require `methodName` text `MinosLogQSO`, collect the parameter struct and
emit a record when `callRx` is truthy.  The `.error` branch models the
`AttributeError` Python raises when `qso_data.get(…, '')` returns a stored
`None` and `.strip()` is called on it (re-raised as `IOError`). -/
def processIq (m : ContestLogManager) (iq : XmlNode) :
    Except Unit ContestLogManager :=
  match iq.findChild (nsRpc ++ "query".data) with
  | none => .ok m
  | some query =>
    match query.findChild (nsRpc ++ "methodCall".data) with
    | none => .ok m
    | some method_call =>
      match method_call.findChild (nsRpc ++ "methodName".data) with
      | none => .ok m
      | some method_name =>
        if method_name.text != some "MinosLogQSO".data then .ok m
        else
          match xmlFindPath method_call
              [nsRpc ++ "params".data, nsRpc ++ "param".data,
                nsRpc ++ "value".data, nsRpc ++ "struct".data] with
          | none => .ok m
          | some params =>
            let qso_data := collectQsoData params
            if xmlDictHas qso_data "callRx".data &&
                pyTruthy (xmlDictGet qso_data "callRx".data) then
              let commentsTx := xmlDictGet qso_data "commentsTx".data
              let commentsRx := xmlDictGet qso_data "commentsRx".data
              let comments :=
                (if pyTruthy commentsTx then [commentsTx.getD []] else []) ++
                  (if pyTruthy commentsRx && commentsRx != commentsTx then
                    [commentsRx.getD []] else [])
              let callRx := (xmlDictGet qso_data "callRx".data).getD []
              match xmlDictGet qso_data "locRx".data,
                  xmlDictHas qso_data "locRx".data,
                  xmlDictGet qso_data "exchangeRx".data,
                  xmlDictHas qso_data "exchangeRx".data with
              | none, true, _, _ => .error ()
              | _, _, none, true => .error ()
              | locRx, _, exchangeRx, _ =>
                .ok (add_or_merge_record m
                  { callsign := pyStrip callRx
                    locator := pyStrip (locRx.getD [])
                    exchange := pyStrip (exchangeRx.getD [])
                    comment := List.intercalate " | ".data comments })
            else .ok m

/-- The `iq` fold of `load_minos` (lines 271-324): progress is reported
before each element is examined, so a failing element still delivers its
progress value. -/
def minosLoop (m : ContestLogManager) (iqs : List XmlNode)
    (total processed : Nat) :
    ContestLogManager × List ℚ × Option LoadErr :=
  match iqs with
  | [] => (m, [], none)
  | iq :: rest =>
    let processed := processed + 1
    let prog : ℚ := min ((processed : ℚ) / (total : ℚ) * 100) 100
    match processIq m iq with
    | .error _ => (m, [prog], some .attrErr)
    | .ok m' =>
      let (m'', ps, e) := minosLoop m' rest total processed
      (m'', prog :: ps, e)

/-- `ContestLogManager.load_minos` (lines 221-339): locate the
`<stream:stream` marker by literal search (`FormatError` when absent),
parse the cleaned buffer (`ParseError` when malformed, via the oracle),
fail when zero `iq` elements are found, else fold over them. -/
def load_minos (m : ContestLogManager) (content : Str)
    (xmlParse : Option XmlNode) :
    ContestLogManager × List ℚ × Option LoadErr :=
  match strFindSub content "<stream:stream".data with
  | none => (m, [], some .noStream)
  | some _ =>
    match xmlParse with
    | none => (m, [], some .xmlErr)
    | some root =>
      let iqs :=
        root.descendants.filter (fun n => n.tag == nsClient ++ "iq".data)
      if iqs.length == 0 then (m, [], some .noRecords)
      else minosLoop m iqs iqs.length 0

/-- `Path(filepath).suffix.lower()`: extension of the final path
component, empty for none or for a bare leading/trailing dot. -/
def pySuffix (path : Str) : Str :=
  let name := (splitOnChar '/' path).getLastD []
  match strFindSub name.reverse ['.'] with
  | none => []
  | some revIdx =>
    let i := name.length - 1 - revIdx
    if 0 < i && i < name.length - 1 then name.drop i else []

/-- `SUPPORTED_FORMATS` (line 62). -/
def SUPPORTED_FORMATS : List Str :=
  [".csl".data, ".edi".data, ".adi".data, ".adif".data, ".minos".data]

/-- A file presented to `load_file`: whether the path exists, the path
itself, the raw character content, and the external-XML-parser oracle for
the `.minos` branch (the result of `ET.fromstring` on the cleaned
buffer). -/
structure FileModel where
  pathExists : Bool
  path : Str
  content : Str
  xmlParse : Option XmlNode

/-- `bounded_progress` (lines 88-90): clamp to `[0, 100]` before
delivery. -/
def boundedProgress (x : ℚ) : ℚ := min (max x 0) 100

/-- The extension dispatch of `load_file` (lines 92-99): the matching
parser runs and yields the post-parse manager, the raw (pre-clamp)
progress values it computed, and its failure if any. -/
def dispatchLoad (m : ContestLogManager) (f : FileModel) (extension : Str) :
    ContestLogManager × List ℚ × Option LoadErr :=
  if extension == ".csl".data then load_csl m f.content
  else if extension == ".edi".data then
    ((load_edi m f.content).1, (load_edi m f.content).2, none)
  else if extension == ".adi".data || extension == ".adif".data then
    ((load_adif m f.content).1, (load_adif m f.content).2, none)
  else load_minos m f.content f.xmlParse

/-- `ContestLogManager.load_file` (lines 72-110): path existence check,
extension dispatch, loaders fed the clamped progress sink
(`bounded_progress`); on success the current file is recorded, the dirty
flag set and observers notified; any loader failure propagates with no
commit of those final steps. -/
def load_file (m : ContestLogManager) (f : FileModel) :
    ContestLogManager × List ℚ × Option LoadErr :=
  if !f.pathExists then (m, [], some .notFound)
  else
    let extension := pyLower (pySuffix f.path)
    if !(SUPPORTED_FORMATS.any (fun e => e == extension)) then
      (m, [], some .unsupported)
    else
      let res := dispatchLoad m f extension
      let delivered := res.2.1.map boundedProgress
      match res.2.2 with
      | some e => (res.1, delivered, some e)
      | none =>
        ({ res.1 with
            current_file := some f.path
            has_unsaved_changes := true
            notifyCount := res.1.notifyCount + 1 },
          delivered, none)

/-- `ContestLogManager.save_csl` (lines 370-380): the header and rows are
written first; only a completed write clears the dirty flag and notifies
observers, so a write failure (`writeOk = false`, the `IOError` path)
leaves the manager exactly as it was. -/
def save_csl (self : ContestLogManager) (writeOk : Bool) :
    ContestLogManager × Option Str × Option Unit :=
  if writeOk then
    ({ self with
        has_unsaved_changes := false
        notifyCount := self.notifyCount + 1 },
      some (save_csl_content self), none)
  else (self, none, some ())

/-! ## Basic lemmas about record equality and the engine -/

/-- Value equality is reflexive. -/
theorem recEq_refl (a : ContestRecord) : recEq a a = true := by
  simp [recEq]

/-- Value equality is symmetric. -/
theorem recEq_symm {a b : ContestRecord} (h : recEq a b = true) :
    recEq b a = true := by
  simp only [recEq, Bool.and_eq_true, beq_iff_eq] at h ⊢
  exact ⟨⟨⟨h.1.1.1.symm, h.1.1.2.symm⟩, h.1.2.symm⟩, h.2.symm⟩

/-- Value-equal records have matching callsigns. -/
theorem recEq_callsign {a b : ContestRecord} (h : recEq a b = true) :
    pyUpper a.callsign = pyUpper b.callsign := by
  simp only [recEq, Bool.and_eq_true, beq_iff_eq] at h
  exact h.1.1.1

/-- Unfolding `add_or_merge_record` when both guards pass. -/
theorem add_or_merge_record_eq (self : ContestLogManager)
    (new_record : ContestRecord) (hcs : new_record.callsign ≠ [])
    (hfil : self.remove_callsign_only = false ∨
      new_record.has_more_than_callsign = true) :
    add_or_merge_record self new_record =
      { self with
        records :=
          match self.merge_mode with
          | .KEEP_ALL =>
            if self.records.any (fun r => recEq r new_record) then self.records
            else self.records ++ [new_record]
          | .KEEP_RECENT =>
            (match (self.records.filter (callsignMatches new_record)).head? with
             | some e => self.records.eraseP (fun r => recEq r e)
             | none => self.records) ++ [new_record]
          | .SMART_MERGE =>
            match (self.records.filter (callsignMatches new_record)).head? with
            | some e =>
              self.records.set (self.records.findIdx (fun r => recEq r e))
                (smartMerged e new_record)
            | none => self.records ++ [new_record]
        has_unsaved_changes := true
        notifyCount := self.notifyCount + 1 } := by
  have h1 : new_record.callsign.isEmpty = false := by
    simpa using hcs
  have h2 : (self.remove_callsign_only && !new_record.has_more_than_callsign)
      = false := by
    rcases hfil with h | h <;> simp [h]
  simp [add_or_merge_record, h1, h2]

/-- A record with empty callsign is discarded with the whole state
untouched, under every policy and filter setting. -/
theorem add_empty_callsign_noop (m : ContestLogManager) (r : ContestRecord)
    (h : r.callsign = []) : add_or_merge_record m r = m := by
  simp [add_or_merge_record, h]

/-- The head of a filtered list is the element at the first index
satisfying the predicate. -/
theorem filter_head?_findIdx {α : Type} (l : List α) (p : α → Bool)
    (h : l.findIdx p < l.length) :
    (l.filter p).head? = some (l.get ⟨l.findIdx p, h⟩) := by
  induction l with
  | nil => simp at h
  | cons a t ih =>
    by_cases hp : p a
    · simp [List.filter_cons, hp, List.findIdx_cons]
    · have hpf : p a = false := Bool.eq_false_iff.mpr hp
      have hfi : (a :: t).findIdx p = t.findIdx p + 1 := by
        simp [List.findIdx_cons, hpf]
      have h' : t.findIdx p < t.length := by
        have := h
        rw [hfi] at this
        simpa using Nat.lt_of_succ_lt_succ this
      rw [List.filter_cons, if_neg (by simp [hpf])]
      rw [ih h']
      congr 1
      simp [List.get_eq_getElem, hfi]

/-- `list.index(existing_record)` rediscovers the position of the first
callsign match: any record value-equal to the first matching record also
matches on callsign, so no earlier index can satisfy `recEq`, and the
first matching record is value-equal to itself. -/
theorem findIdx_recEq_of_first_match (l : List ContestRecord)
    (r : ContestRecord) (h : l.findIdx (callsignMatches r) < l.length) :
    l.findIdx
        (fun x => recEq x (l.get ⟨l.findIdx (callsignMatches r), h⟩))
      = l.findIdx (callsignMatches r) := by
  apply (List.findIdx_eq h).mpr
  have hpe : callsignMatches r (l.get ⟨l.findIdx (callsignMatches r), h⟩)
      = true :=
    @List.findIdx_getElem _ (callsignMatches r) l h
  constructor
  · exact recEq_refl _
  · intro j hj
    show recEq (l.get ⟨j, Nat.lt_trans hj h⟩)
      (l.get ⟨l.findIdx (callsignMatches r), h⟩) = false
    by_contra hne
    rw [Bool.not_eq_false] at hne
    have hcse := recEq_callsign hne
    have hre : pyUpper (l.get ⟨l.findIdx (callsignMatches r), h⟩).callsign
        = pyUpper r.callsign := by
      simpa only [callsignMatches, beq_iff_eq] using hpe
    have hmatch : callsignMatches r (l.get ⟨j, Nat.lt_trans hj h⟩) = true := by
      simp only [callsignMatches, beq_iff_eq]
      exact hcse.trans hre
    have hp : callsignMatches r (l.get ⟨j, Nat.lt_trans hj h⟩) = false := by
      simpa only [← List.get_eq_getElem] using
        @List.not_of_lt_findIdx _ (callsignMatches r) l j hj
    rw [hmatch] at hp
    cases hp

/-- `add_or_merge_record` never changes the merge mode. -/
theorem add_or_merge_record_merge_mode (m : ContestLogManager)
    (r : ContestRecord) :
    (add_or_merge_record m r).merge_mode = m.merge_mode := by
  rw [add_or_merge_record]
  split
  · rfl
  · split <;> rfl

/-- One Keep-All step preserves freedom from value-equal duplicates. -/
theorem keepAll_step_pairwise (m : ContestLogManager) (r : ContestRecord)
    (hmode : m.merge_mode = .KEEP_ALL)
    (hp : m.records.Pairwise (fun a b => recEq a b = false)) :
    (add_or_merge_record m r).records.Pairwise
      (fun a b => recEq a b = false) := by
  rw [add_or_merge_record]
  split
  · exact hp
  · split
    · exact hp
    · simp only [hmode]
      by_cases hany : m.records.any (fun x => recEq x r) = true
      · simp only [hany, if_true]
        exact hp
      · have hany' : m.records.any (fun x => recEq x r) = false :=
          Bool.eq_false_iff.mpr hany
        simp only [hany']
        rw [if_neg Bool.false_ne_true]
        rw [List.pairwise_append]
        refine ⟨hp, List.pairwise_singleton _ _, ?_⟩
        intro a ha b hb
        rw [List.mem_singleton] at hb
        subst hb
        have := List.any_eq_false.mp hany' a ha
        simpa using this

/-- Claim C4: a store that starts empty and is mutated only through the
reconciliation entry point under the Keep-All policy never holds two
value-equal records (value equality per `ContestRecord.__eq__`:
case-insensitive callsign, trimmed case-sensitive other fields), whatever
records arrive and however the callsign-only filter is toggled. -/
theorem keep_all_no_value_equal_duplicates
    (evts : List (Bool × ContestRecord)) :
    (runKeepAll evts).records.Pairwise (fun a b => recEq a b = false) := by
  suffices h : ∀ (l : List (Bool × ContestRecord)) (m : ContestLogManager),
      m.merge_mode = .KEEP_ALL →
      m.records.Pairwise (fun a b => recEq a b = false) →
      (l.foldl
        (fun m e => add_or_merge_record (set_remove_callsign_only m e.1) e.2)
        m).records.Pairwise (fun a b => recEq a b = false) by
    exact h evts initManager rfl (List.Pairwise.nil)
  intro l
  induction l with
  | nil => intro m _ hp; exact hp
  | cons e tl ih =>
    intro m hmode hp
    refine ih _ ?_ ?_
    · rw [add_or_merge_record_merge_mode]
      exact hmode
    · exact keepAll_step_pairwise _ _ hmode hp

/-- Claim C3: under Keep-Most-Recent, adding two records with
case-insensitively equal, non-empty callsigns to an empty store (filter
off) leaves exactly the second record. -/
theorem keep_recent_last_write_wins (r1 r2 : ContestRecord)
    (h1 : r1.callsign ≠ []) (h2 : r2.callsign ≠ [])
    (hmatch : pyUpper r1.callsign = pyUpper r2.callsign) :
    (add_or_merge_record
      (add_or_merge_record { initManager with merge_mode := .KEEP_RECENT } r1)
      r2).records = [r2] := by
  rw [add_or_merge_record_eq _ _ h1 (Or.inl rfl)]
  rw [add_or_merge_record_eq _ _ h2 (Or.inl rfl)]
  simp [initManager, callsignMatches, hmatch, recEq_refl]

/-- Witness for C3 at concrete records. -/
theorem keep_recent_last_write_wins_witness :
    (add_or_merge_record
      (add_or_merge_record { initManager with merge_mode := .KEEP_RECENT }
        ⟨"g4ctp".data, "IO91AA".data, [], []⟩)
      ⟨"G4CTP".data, [], "59001".data, "hi".data⟩).records
      = [⟨"G4CTP".data, [], "59001".data, "hi".data⟩] :=
  keep_recent_last_write_wins
    ⟨"g4ctp".data, "IO91AA".data, [], []⟩
    ⟨"G4CTP".data, [], "59001".data, "hi".data⟩
    (by decide) (by decide) (by decide)

/-- Counterexample to claim C5 as stated: a record whose callsign is the
blank (whitespace-only) string `" "` is not discarded — it is stored and
the store is modified, because the source only tests `not
new_record.callsign`, which is falsy solely for the empty string. -/
theorem blank_callsign_stored_counterexample :
    pyStrip " ".data = [] ∧
    (add_or_merge_record initManager ⟨" ".data, [], [], []⟩).records
      = [⟨" ".data, [], [], []⟩] :=
  ⟨by decide, by decide⟩

/-- `applyEvent` preserves "no stored record has an empty callsign". -/
theorem applyEvent_preserves_nonempty_callsign (m : ContestLogManager)
    (hm : ∀ x ∈ m.records, x.callsign ≠ []) (e : MgrEvent) :
    ∀ x ∈ (applyEvent m e).records, x.callsign ≠ [] := by
  intro x hx
  cases e with
  | setMode mode => exact hm x hx
  | setFilter v => exact hm x hx
  | reset => simp [applyEvent, resetManager] at hx
  | add r =>
    by_cases hr : r.callsign = []
    · rw [show applyEvent m (.add r) = add_or_merge_record m r from rfl,
        add_empty_callsign_noop m r hr] at hx
      exact hm x hx
    · simp only [applyEvent, add_or_merge_record] at hx
      split at hx
      · exact hm x hx
      · split at hx
        · exact hm x hx
        · simp only at hx
          cases hmode : m.merge_mode with
          | KEEP_ALL =>
            rw [hmode] at hx
            simp only at hx
            split at hx
            · exact hm x hx
            · rcases List.mem_append.mp hx with h | h
              · exact hm x h
              · rw [List.mem_singleton] at h
                subst h
                exact hr
          | KEEP_RECENT =>
            rw [hmode] at hx
            simp only at hx
            rcases List.mem_append.mp hx with h | h
            · rcases hh : (m.records.filter (callsignMatches r)).head? with
                _ | e
              · rw [hh] at h
                exact hm x h
              · rw [hh] at h
                exact hm x (List.mem_of_mem_eraseP h)
            · rw [List.mem_singleton] at h
              subst h
              exact hr
          | SMART_MERGE =>
            rw [hmode] at hx
            simp only at hx
            rcases hh : (m.records.filter (callsignMatches r)).head? with
              _ | e
            · rw [hh] at hx
              rcases List.mem_append.mp hx with h | h
              · exact hm x h
              · rw [List.mem_singleton] at h
                subst h
                exact hr
            · rw [hh] at hx
              rcases List.mem_or_eq_of_mem_set hx with h | h
              · exact hm x h
              · have he : e ∈ m.records :=
                  (List.mem_filter.mp
                    (List.mem_of_mem_head? (Option.mem_def.mpr hh))).1
                subst h
                exact hm e he

/-- Claim C5 amended: the entry point discards a record precisely when its
callsign is the *empty* string (leaving the whole manager untouched under
every policy and filter setting), and consequently no store reachable from
an empty engine through the engine's calls ever holds a record with an
empty callsign.  (Whitespace-only callsigns are stored, per the
counterexample.) -/
theorem empty_callsign_discarded_and_never_stored :
    (∀ (m : ContestLogManager) (r : ContestRecord), r.callsign = [] →
      add_or_merge_record m r = m) ∧
    (∀ evts : List MgrEvent, ∀ x ∈ (runEvents evts).records,
      x.callsign ≠ []) := by
  constructor
  · exact add_empty_callsign_noop
  · suffices h : ∀ (evts : List MgrEvent) (m : ContestLogManager),
        (∀ x ∈ m.records, x.callsign ≠ []) →
        ∀ x ∈ (evts.foldl applyEvent m).records, x.callsign ≠ [] by
      intro evts
      exact h evts initManager (by intro x hx; simp [initManager] at hx)
    intro evts
    induction evts with
    | nil => intro m hm; exact hm
    | cons e tl ih =>
      intro m hm
      exact ih _ (applyEvent_preserves_nonempty_callsign m hm e)

/-- Witness for the amended C5: discarding a concrete empty-callsign record
leaves a concrete store untouched, and a concrete event run stores only
non-empty callsigns. -/
theorem empty_callsign_discarded_witness :
    add_or_merge_record initManager ⟨[], "IO91".data, [], []⟩ = initManager ∧
    ∀ x ∈ (runEvents [.add ⟨"G4CTP".data, [], [], []⟩]).records,
      x.callsign ≠ [] :=
  ⟨empty_callsign_discarded_and_never_stored.1 initManager
      ⟨[], "IO91".data, [], []⟩ rfl,
    empty_callsign_discarded_and_never_stored.2
      [.add ⟨"G4CTP".data, [], [], []⟩]⟩

/-- Claim C7: a failed save (the `IOError` path) leaves the manager — its
record list, dirty flag, and every record value — exactly as it was, while
a successful save keeps the records, clears the dirty flag and notifies
the observers. -/
theorem save_error_and_success_contract (m : ContestLogManager) :
    (save_csl m false).1 = m ∧
    (save_csl m true).1.records = m.records ∧
    (save_csl m true).1.has_unsaved_changes = false ∧
    (save_csl m true).1.notifyCount = m.notifyCount + 1 := by
  simp [save_csl]

/-- Claim C10: any record passing the empty-callsign guard and the
callsign-only filter sets the dirty flag and fires one notification (one
synchronous call of every registered observer), whatever the merge policy
does to the list — including when Keep-All suppresses a value-equal
duplicate and the list is unchanged. -/
theorem add_always_dirties_and_notifies (m : ContestLogManager)
    (r : ContestRecord) (hcs : r.callsign ≠ [])
    (hfil : m.remove_callsign_only = false ∨
      r.has_more_than_callsign = true) :
    (add_or_merge_record m r).has_unsaved_changes = true ∧
    (add_or_merge_record m r).notifyCount = m.notifyCount + 1 := by
  rw [add_or_merge_record_eq m r hcs hfil]
  exact ⟨rfl, rfl⟩

/-- Witness for C10 in the duplicate-suppression case: the list stays
unchanged, yet the flag is set and the observers notified. -/
theorem add_always_dirties_and_notifies_witness :
    ((add_or_merge_record
        (add_or_merge_record initManager ⟨"G4CTP".data, "IO91".data, [], []⟩)
        ⟨"G4CTP".data, "IO91".data, [], []⟩).records
      = (add_or_merge_record initManager
          ⟨"G4CTP".data, "IO91".data, [], []⟩).records) ∧
    (add_or_merge_record
        (add_or_merge_record initManager ⟨"G4CTP".data, "IO91".data, [], []⟩)
        ⟨"G4CTP".data, "IO91".data, [], []⟩).has_unsaved_changes = true ∧
    (add_or_merge_record
        (add_or_merge_record initManager ⟨"G4CTP".data, "IO91".data, [], []⟩)
        ⟨"G4CTP".data, "IO91".data, [], []⟩).notifyCount
      = (add_or_merge_record initManager
          ⟨"G4CTP".data, "IO91".data, [], []⟩).notifyCount + 1 :=
  ⟨by decide,
    (add_always_dirties_and_notifies _ ⟨"G4CTP".data, "IO91".data, [], []⟩
      (by decide) (Or.inl (by decide))).1,
    (add_always_dirties_and_notifies _ ⟨"G4CTP".data, "IO91".data, [], []⟩
      (by decide) (Or.inl (by decide))).2⟩

/-- Claim C2: under Smart-Merge, when some stored record's callsign
matches the incoming one case-insensitively, the first such record —
the one at `findIdx (callsignMatches r)` — is replaced in place (the list
is `set` at that position, so every other position is untouched) by
`smartMerged existing incoming`, whose callsign is the existing record's
callsign with its original casing and whose locator, exchange and comment
are, independently per field, the incoming value when non-blank after
trimming and the existing value otherwise; when no stored callsign
matches, the incoming record is appended. -/
theorem smart_merge_contract (m : ContestLogManager) (r : ContestRecord)
    (hmode : m.merge_mode = .SMART_MERGE) (hcs : r.callsign ≠ [])
    (hfil : m.remove_callsign_only = false ∨
      r.has_more_than_callsign = true) :
    ((∀ x ∈ m.records, callsignMatches r x = false) →
      (add_or_merge_record m r).records = m.records ++ [r]) ∧
    (∀ hlt : m.records.findIdx (callsignMatches r) < m.records.length,
      (add_or_merge_record m r).records =
        m.records.set (m.records.findIdx (callsignMatches r))
          (smartMerged
            (m.records.get ⟨m.records.findIdx (callsignMatches r), hlt⟩)
            r)) := by
  rw [add_or_merge_record_eq m r hcs hfil]
  simp only [hmode]
  constructor
  · intro hnone
    have hfil0 : m.records.filter (callsignMatches r) = [] := by
      rw [List.filter_eq_nil_iff]
      intro a ha
      simp [hnone a ha]
    rw [hfil0]
    rfl
  · intro hlt
    have hh := filter_head?_findIdx m.records (callsignMatches r) hlt
    rw [hh]
    simp only
    rw [findIdx_recEq_of_first_match m.records r hlt]

/-- Witness for C2: merging `G4CTP` (blank locator, non-blank exchange)
into a store holding `g4ctp` keeps the stored casing and locator and takes
the incoming exchange. -/
theorem smart_merge_contract_witness :
    (add_or_merge_record
      { initManager with
        merge_mode := .SMART_MERGE
        records := [⟨"g4ctp".data, "IO91AA".data, [], []⟩] }
      ⟨"G4CTP".data, [], "59001".data, []⟩).records
      = [⟨"g4ctp".data, "IO91AA".data, "59001".data, []⟩] := by
  have h := (smart_merge_contract
    { initManager with
      merge_mode := .SMART_MERGE
      records := [⟨"g4ctp".data, "IO91AA".data, [], []⟩] }
    ⟨"G4CTP".data, [], "59001".data, []⟩ rfl (by decide)
    (Or.inl rfl)).2 (by decide)
  rw [h]
  decide

/-- The per-`iq` fold never raises the zero-record error: its only failure
is the `AttributeError` path. -/
theorem minosLoop_err_ne_noRecords (iqs : List XmlNode) :
    ∀ (m : ContestLogManager) (total processed : Nat),
      (minosLoop m iqs total processed).2.2 ≠ some .noRecords := by
  induction iqs with
  | nil =>
    intro m t p
    simp [minosLoop]
  | cons iq rest ih =>
    intro m t p
    simp only [minosLoop]
    cases hpi : processIq m iq with
    | error e => simp
    | ok m' =>
      rcases hrec : minosLoop m' rest t (p + 1) with ⟨m'', ps, err⟩
      have := ih m' t (p + 1)
      rw [hrec] at this
      simpa [hrec] using this

/-- An XML document with a single `iq` element that does not qualify
(no `query` child, hence no `MinosLogQSO` method and no record). -/
def c6root : XmlNode :=
  .elem "root".data none [.elem (nsClient ++ "iq".data) none []]

/-- Counterexample to claim C6 as stated: a well-formed Minos file with a
stream element whose only `iq` element fails to qualify yields zero
qualifying records, yet `load_minos` reports *no* error (the empty-result
error fires on zero `iq` elements, not zero qualifying records). -/
theorem minos_unqualifying_iq_no_error :
    (load_minos initManager "<stream:stream>".data (some c6root)).2.2
        = none ∧
    (load_minos initManager "<stream:stream>".data (some c6root)).1.records
        = [] :=
  ⟨by decide, by decide⟩

/-- Claim C6 amended: for a Minos file containing a stream element and
well-formed XML, the load fails with the empty-result error if and only if
the document holds zero `iq` elements (in the `minos:client` namespace);
`iq` elements that merely fail to qualify raise nothing and add no
records. -/
theorem minos_empty_error_iff_no_iq_elements (m : ContestLogManager)
    (content : Str) (root : XmlNode)
    (hstream : (strFindSub content "<stream:stream".data).isSome = true) :
    (load_minos m content (some root)).2.2 = some .noRecords ↔
      (root.descendants.filter
        (fun n => n.tag == nsClient ++ "iq".data)).length = 0 := by
  obtain ⟨k, hk⟩ := Option.isSome_iff_exists.mp hstream
  simp only [load_minos, hk]
  by_cases hlen :
      ((root.descendants.filter
        (fun n => n.tag == nsClient ++ "iq".data)).length == 0) = true
  · simp only [hlen, if_true]
    constructor
    · intro _
      simpa using hlen
    · intro _
      trivial
  · have hlen' := Bool.eq_false_iff.mpr hlen
    simp only [hlen']
    rw [if_neg Bool.false_ne_true]
    constructor
    · intro hcontra
      exact absurd hcontra (minosLoop_err_ne_noRecords _ _ _ _)
    · intro hzero
      exact absurd (by simp [hzero]) hlen

/-- Witness for the amended C6: a stream with an iq-free document raises
the empty-result error. -/
theorem minos_empty_error_iff_witness :
    (load_minos initManager "<stream:stream>".data
      (some (XmlNode.elem "root".data none []))).2.2 = some .noRecords :=
  (minos_empty_error_iff_no_iq_elements initManager "<stream:stream>".data
    (XmlNode.elem "root".data none []) (by decide)).mpr (by decide)

/-- The only failure of the CSL row loop is the over-long-row
`TypeError`. -/
theorem cslLoop_err (rows : List (List Str)) :
    ∀ (m : ContestLogManager) (total : ℚ) (processed : Nat),
      (cslLoop m rows total processed).2.2 = none ∨
        (cslLoop m rows total processed).2.2 = some .badRow := by
  induction rows with
  | nil =>
    intro m t p
    left
    simp [cslLoop]
  | cons row rest ih =>
    intro m t p
    simp only [cslLoop]
    by_cases hrow : row.isEmpty = true
    · simp only [hrow, if_true]
      rcases hrec : cslLoop m rest t (p + 1) with ⟨m', ps, err⟩
      have := ih m t (p + 1)
      rw [hrec] at this
      simpa [hrec] using this
    · have hrow' := Bool.eq_false_iff.mpr hrow
      simp only [hrow']
      rw [if_neg Bool.false_ne_true]
      cases hfl : ContestRecord.from_list (row.map pyStrip) with
      | none => right; rfl
      | some r =>
        rcases hrec : cslLoop (add_or_merge_record m r) rest t (p + 1) with
          ⟨m', ps, err⟩
        have := ih (add_or_merge_record m r) t (p + 1)
        rw [hrec] at this
        simpa [hrec] using this

/-- The only failure of `load_csl` is the over-long-row `TypeError`. -/
theorem load_csl_err (m : ContestLogManager) (content : Str) :
    (load_csl m content).2.2 = none ∨
      (load_csl m content).2.2 = some .badRow := by
  rw [load_csl]
  cases hrows : csvParseContent (universalNewlines content) with
  | nil => left; rfl
  | cons first_line rest =>
    by_cases hfirst :
        (!first_line.isEmpty &&
          !pyStartsWith (first_line.headD []) ['#']) = true
    · simp only [hfirst, if_true]
      cases hfl : ContestRecord.from_list (first_line.map pyStrip) with
      | none => right; rfl
      | some r =>
        rcases hrec :
            cslLoop (add_or_merge_record m r) rest
              ((pyReadLines content).length : ℚ) 1 with ⟨m', ps, err⟩
        have := cslLoop_err rest (add_or_merge_record m r)
          ((pyReadLines content).length : ℚ) 1
        rw [hrec] at this
        simpa [hrec] using this
    · have hfirst' := Bool.eq_false_iff.mpr hfirst
      simp only [hfirst']
      rw [if_neg Bool.false_ne_true]
      exact cslLoop_err rest m _ 0

/-- The per-`iq` fold either succeeds or stops with the `AttributeError`
path. -/
theorem minosLoop_err_cases (iqs : List XmlNode) :
    ∀ (m : ContestLogManager) (total processed : Nat),
      (minosLoop m iqs total processed).2.2 = none ∨
        (minosLoop m iqs total processed).2.2 = some .attrErr := by
  induction iqs with
  | nil =>
    intro m t p
    left
    simp [minosLoop]
  | cons iq rest ih =>
    intro m t p
    simp only [minosLoop]
    cases hpi : processIq m iq with
    | error e => right; rfl
    | ok m' =>
      rcases hrec : minosLoop m' rest t (p + 1) with ⟨m'', ps, err⟩
      have := ih m' t (p + 1)
      rw [hrec] at this
      simpa [hrec] using this

/-- When the dispatch fails with one of the four structural errors, no
record was merged: the manager comes back exactly as it went in. -/
theorem dispatchLoad_structural (m : ContestLogManager) (f : FileModel)
    (extension : Str) (e : LoadErr)
    (herr : (dispatchLoad m f extension).2.2 = some e)
    (hstruct : e = .notFound ∨ e = .unsupported ∨ e = .noStream ∨
      e = .xmlErr) :
    (dispatchLoad m f extension).1 = m := by
  rw [dispatchLoad] at herr ⊢
  by_cases hcsl : (extension == ".csl".data) = true
  · simp only [hcsl, if_true] at herr ⊢
    rcases load_csl_err m f.content with hnone | hbad
    · rw [hnone] at herr
      cases herr
    · rw [hbad] at herr
      rw [Option.some_inj] at herr
      subst herr
      rcases hstruct with h | h | h | h <;> cases h
  · have hcsl' := Bool.eq_false_iff.mpr hcsl
    simp only [hcsl'] at herr ⊢
    rw [if_neg Bool.false_ne_true] at herr ⊢
    by_cases hedi : (extension == ".edi".data) = true
    · simp only [hedi, if_true] at herr
      cases herr
    · have hedi' := Bool.eq_false_iff.mpr hedi
      simp only [hedi'] at herr ⊢
      rw [if_neg Bool.false_ne_true] at herr ⊢
      by_cases hadi :
          ((extension == ".adi".data) || (extension == ".adif".data)) = true
      · simp only [hadi, if_true] at herr
        cases herr
      · have hadi' := Bool.eq_false_iff.mpr hadi
        simp only [hadi'] at herr ⊢
        rw [if_neg Bool.false_ne_true] at herr ⊢
        rw [load_minos.eq_def] at herr ⊢
        cases hstream : strFindSub f.content "<stream:stream".data with
        | none => simp [hstream]
        | some k =>
          simp only [hstream] at herr ⊢
          cases hparse : f.xmlParse with
          | none => simp [hparse]
          | some root =>
            simp only [hparse] at herr ⊢
            by_cases hlen :
                ((root.descendants.filter
                  (fun n => n.tag == nsClient ++ "iq".data)).length
                    == 0) = true
            · simp only [hlen, if_true] at herr
              rw [Option.some_inj] at herr
              subst herr
              rcases hstruct with h | h | h | h <;> cases h
            · have hlen' := Bool.eq_false_iff.mpr hlen
              simp only [hlen'] at herr ⊢
              rw [if_neg Bool.false_ne_true] at herr ⊢
              rcases minosLoop_err_cases
                  (root.descendants.filter
                    (fun n => n.tag == nsClient ++ "iq".data)) m
                  (root.descendants.filter
                    (fun n => n.tag == nsClient ++ "iq".data)).length 0
                  with hnone | hattr
              · rw [hnone] at herr
                cases herr
              · rw [hattr] at herr
                rw [Option.some_inj] at herr
                subst herr
                rcases hstruct with h | h | h | h <;> cases h

/-- Claim C8: a load that fails with a structural error — missing path,
unsupported extension, missing stream marker, or unparsable XML — does so
before any record is merged, leaving `has_unsaved_changes` and the record
count exactly as they were before the call. -/
theorem structural_load_error_preserves_state (m : ContestLogManager)
    (f : FileModel) (e : LoadErr)
    (herr : (load_file m f).2.2 = some e)
    (hstruct : e = .notFound ∨ e = .unsupported ∨ e = .noStream ∨
      e = .xmlErr) :
    (load_file m f).1.has_unsaved_changes = m.has_unsaved_changes ∧
    (load_file m f).1.records.length = m.records.length := by
  rw [load_file] at herr ⊢
  cases hex : f.pathExists with
  | false => simp [hex]
  | true =>
    simp only [hex, Bool.not_true] at herr ⊢
    rw [if_neg Bool.false_ne_true] at herr ⊢
    by_cases hsup :
        (SUPPORTED_FORMATS.any
          (fun x => x == pyLower (pySuffix f.path))) = true
    · simp only [hsup, Bool.not_true] at herr ⊢
      rw [if_neg Bool.false_ne_true] at herr ⊢
      cases hdis :
          (dispatchLoad m f (pyLower (pySuffix f.path))).2.2 with
      | none =>
        simp only [hdis] at herr
        cases herr
      | some e1 =>
        simp only [hdis] at herr ⊢
        rw [Option.some_inj] at herr
        subst herr
        have hm := dispatchLoad_structural m f (pyLower (pySuffix f.path))
          e1 hdis hstruct
        rw [hm]
        exact ⟨rfl, rfl⟩
    · have hsup' := Bool.eq_false_iff.mpr hsup
      simp [hsup']

/-- Witness for C8 at a concrete structural failure: a missing path leaves
the dirty flag and record count untouched. -/
theorem structural_load_error_witness :
    (load_file initManager
      ⟨false, "log.csl".data, [], none⟩).1.has_unsaved_changes
        = initManager.has_unsaved_changes ∧
    (load_file initManager
      ⟨false, "log.csl".data, [], none⟩).1.records.length
        = initManager.records.length :=
  structural_load_error_preserves_state initManager
    ⟨false, "log.csl".data, [], none⟩ .notFound (by decide)
    (Or.inl rfl)

/-! ## Progress-sink lemmas (claim C9) -/

/-- The clamp is monotone. -/
theorem boundedProgress_mono {a b : ℚ} (h : a ≤ b) :
    boundedProgress a ≤ boundedProgress b :=
  min_le_min (max_le_max h le_rfl) le_rfl

/-- The clamp really lands in `[0, 100]`. -/
theorem boundedProgress_bounds (x : ℚ) :
    0 ≤ boundedProgress x ∧ boundedProgress x ≤ 100 :=
  ⟨le_min (le_max_right _ _) (by norm_num), min_le_right _ _⟩

/-- Clamping a monotone sequence keeps it monotone. -/
theorem chain_map_boundedProgress {l : List ℚ}
    (h : List.Chain' (· ≤ ·) l) :
    List.Chain' (· ≤ ·) (l.map boundedProgress) :=
  List.chain'_map_of_chain' _ (fun _ _ hab => boundedProgress_mono hab) h

/-- Percentages `c / t * 100` grow with the counter `c` (`t ≥ 0`; for
`t = 0` the rational convention `c / 0 = 0` keeps both sides equal). -/
theorem nat_div100_mono {a b : ℕ} {t : ℚ} (ht : 0 ≤ t) (h : a ≤ b) :
    (a : ℚ) / t * 100 ≤ (b : ℚ) / t * 100 := by
  rcases eq_or_lt_of_le ht with h0 | h0
  · rw [← h0]
    simp
  · exact mul_le_mul_of_nonneg_right
      ((div_le_div_iff_of_pos_right h0).mpr (by exact_mod_cast h)) (by norm_num)

/-- A first-pass EDI percentage with counter at most the line total stays
at or below fifty percent. -/
theorem half_pass_bound {c N : ℕ} (h : c ≤ N) :
    (c : ℚ) / ((N : ℚ) * 2) * 100 ≤ 50 := by
  rcases Nat.eq_zero_or_pos N with h0 | h0
  · subst h0
    have hc : c = 0 := Nat.le_zero.mp h
    subst hc
    simp
  · have hN : (0 : ℚ) < (N : ℚ) * 2 := by positivity
    rw [div_mul_eq_mul_div, div_le_iff₀ hN]
    have hcq : (c : ℚ) ≤ (N : ℚ) := by exact_mod_cast h
    nlinarith

/-- Every second-pass EDI percentage is at least fifty. -/
theorem second_pass_lb (c N : ℕ) :
    (50 : ℚ) ≤ min (50 + (c : ℚ) / ((N : ℚ) * 2) * 100) 100 := by
  refine le_min ?_ (by norm_num)
  have : (0 : ℚ) ≤ (c : ℚ) / ((N : ℚ) * 2) * 100 := by positivity
  linarith

/-- The CSL row loop delivers a monotone progress sequence whose first
value is at least the percentage of the incoming counter. -/
theorem cslLoop_progress (rows : List (List Str)) :
    ∀ (m : ContestLogManager) (total : ℚ) (processed : Nat), 0 ≤ total →
      List.Chain' (· ≤ ·) (cslLoop m rows total processed).2.1 ∧
      (∀ x ∈ (cslLoop m rows total processed).2.1.head?,
        ((processed + 1 : ℕ) : ℚ) / total * 100 ≤ x) := by
  induction rows with
  | nil =>
    intro m t p ht
    exact ⟨by simp [cslLoop], by simp [cslLoop]⟩
  | cons row rest ih =>
    intro m t p ht
    simp only [cslLoop]
    by_cases hrow : row.isEmpty = true
    · simp only [hrow, if_true]
      rcases hrec : cslLoop m rest t (p + 1) with ⟨m1, ps, err⟩
      have hih := ih m t (p + 1) ht
      rw [hrec] at hih
      simp only [hrec]
      constructor
      · rw [List.chain'_cons']
        refine ⟨?_, hih.1⟩
        intro y hy
        exact le_trans (nat_div100_mono ht (by omega)) (hih.2 y hy)
      · intro x hx
        simp only [List.head?_cons, Option.mem_def, Option.some_inj] at hx
        subst hx
        exact le_refl _
    · have hrow' := Bool.eq_false_iff.mpr hrow
      simp only [hrow']
      rw [if_neg Bool.false_ne_true]
      cases hfl : ContestRecord.from_list (row.map pyStrip) with
      | none => exact ⟨by simp, by simp⟩
      | some r =>
        rcases hrec : cslLoop (add_or_merge_record m r) rest t (p + 1) with
          ⟨m1, ps, err⟩
        have hih := ih (add_or_merge_record m r) t (p + 1) ht
        rw [hrec] at hih
        simp only [hrec]
        constructor
        · rw [List.chain'_cons']
          refine ⟨?_, hih.1⟩
          intro y hy
          exact le_trans (nat_div100_mono ht (by omega)) (hih.2 y hy)
        · intro x hx
          simp only [List.head?_cons, Option.mem_def, Option.some_inj] at hx
          subst hx
          exact le_refl _

/-- `load_csl` delivers a monotone raw progress sequence. -/
theorem load_csl_progress (m : ContestLogManager) (content : Str) :
    List.Chain' (· ≤ ·) (load_csl m content).2.1 := by
  rw [load_csl]
  have ht : (0 : ℚ) ≤ ((pyReadLines content).length : ℚ) := by positivity
  cases hrows : csvParseContent (universalNewlines content) with
  | nil => simp
  | cons first_line rest =>
    by_cases hfirst :
        (!first_line.isEmpty &&
          !pyStartsWith (first_line.headD []) ['#']) = true
    · simp only [hfirst, if_true]
      cases hfl : ContestRecord.from_list (first_line.map pyStrip) with
      | none => simp
      | some r =>
        rcases hrec : cslLoop (add_or_merge_record m r) rest
            ((pyReadLines content).length : ℚ) 1 with ⟨m1, ps, err⟩
        have h := cslLoop_progress rest (add_or_merge_record m r)
          ((pyReadLines content).length : ℚ) 1 ht
        rw [hrec] at h
        simp only [hrec]
        rw [List.chain'_cons']
        refine ⟨?_, h.1⟩
        intro y hy
        refine le_trans ?_ (h.2 y hy)
        have := nat_div100_mono (a := 1) (b := 2)
          (t := ((pyReadLines content).length : ℚ)) ht (by omega)
        simpa using this
    · have hfirst' := Bool.eq_false_iff.mpr hfirst
      simp only [hfirst']
      rw [if_neg Bool.false_ne_true]
      exact (cslLoop_progress rest m _ 0 ht).1

/-- The first EDI pass delivers a monotone sequence, its first value at
least the incoming counter's percentage, and (when the counter plus the
remaining lines stays within the total) every value at most fifty. -/
theorem ediPass1_progress (lines : List Str) :
    ∀ (N p : Nat) (comments : List (Str × Str)) (ir : Bool),
      List.Chain' (· ≤ ·) (ediPass1 lines N p comments ir).2 ∧
      (∀ x ∈ (ediPass1 lines N p comments ir).2.head?,
        ((p + 1 : ℕ) : ℚ) / ((N : ℚ) * 2) * 100 ≤ x) ∧
      (p + lines.length ≤ N →
        ∀ x ∈ (ediPass1 lines N p comments ir).2, x ≤ 50) := by
  induction lines with
  | nil =>
    intro N p c ir
    exact ⟨by simp [ediPass1], by simp [ediPass1], by simp [ediPass1]⟩
  | cons l ls ih =>
    intro N p c ir
    have ht : (0 : ℚ) ≤ (N : ℚ) * 2 := by positivity
    have hih := ih N (p + 1) (ediPass1Update c ir (pyStrip l)).1
      (ediPass1Update c ir (pyStrip l)).2
    simp only [ediPass1]
    refine ⟨?_, ?_, ?_⟩
    · rw [List.chain'_cons']
      refine ⟨?_, hih.1⟩
      intro y hy
      exact le_trans (nat_div100_mono ht (by omega)) (hih.2.1 y hy)
    · intro x hx
      simp only [List.head?_cons, Option.mem_def, Option.some_inj] at hx
      subst hx
      exact le_refl _
    · intro hcnt x hx
      rcases List.mem_cons.mp hx with hx | hx
      · subst hx
        exact half_pass_bound (by simp at hcnt; omega)
      · exact hih.2.2 (by simp at hcnt ⊢; omega) x hx

/-- The second EDI pass delivers a monotone sequence, its first value at
least the incoming counter's capped percentage, and every value at least
fifty. -/
theorem ediPass2_progress (lines : List Str) :
    ∀ (m : ContestLogManager) (N p : Nat) (comments : List (Str × Str))
      (iq : Bool),
      List.Chain' (· ≤ ·) (ediPass2 m lines N p comments iq).2 ∧
      (∀ x ∈ (ediPass2 m lines N p comments iq).2.head?,
        min (50 + ((p + 1 : ℕ) : ℚ) / ((N : ℚ) * 2) * 100) 100 ≤ x) ∧
      (∀ x ∈ (ediPass2 m lines N p comments iq).2, 50 ≤ x) := by
  induction lines with
  | nil =>
    intro m N p c iq
    exact ⟨by simp [ediPass2], by simp [ediPass2], by simp [ediPass2]⟩
  | cons l ls ih =>
    intro m N p c iq
    have ht : (0 : ℚ) ≤ (N : ℚ) * 2 := by positivity
    have hstep : min (50 + ((p + 1 : ℕ) : ℚ) / ((N : ℚ) * 2) * 100) 100 ≤
        min (50 + ((p + 1 + 1 : ℕ) : ℚ) / ((N : ℚ) * 2) * 100) 100 := by
      refine min_le_min ?_ le_rfl
      have := nat_div100_mono (a := p + 1) (b := p + 1 + 1)
        (t := (N : ℚ) * 2) ht (by omega)
      linarith
    simp only [ediPass2]
    by_cases h1 : pyStartsWith (pyStrip l) "[QSORecords;".data = true
    · simp only [h1, if_true]
      have hih := ih m N (p + 1) c true
      refine ⟨?_, ?_, ?_⟩
      · rw [List.chain'_cons']
        refine ⟨?_, hih.1⟩
        intro y hy
        exact le_trans hstep (hih.2.1 y hy)
      · intro x hx
        simp only [List.head?_cons, Option.mem_def, Option.some_inj] at hx
        subst hx
        exact le_refl _
      · intro x hx
        rcases List.mem_cons.mp hx with hx | hx
        · subst hx
          exact second_pass_lb _ _
        · exact hih.2.2 x hx
    · have h1' := Bool.eq_false_iff.mpr h1
      simp only [h1']
      rw [if_neg Bool.false_ne_true]
      by_cases h2 : pyStartsWith (pyStrip l) "[END;".data = true
      · simp only [h2, if_true]
        refine ⟨by simp, ?_, ?_⟩
        · intro x hx
          simp only [List.head?_cons, Option.mem_def, Option.some_inj] at hx
          subst hx
          exact le_refl _
        · intro x hx
          rcases List.mem_cons.mp hx with hx | hx
          · subst hx
            exact second_pass_lb _ _
          · simp at hx
      · have h2' := Bool.eq_false_iff.mpr h2
        simp only [h2']
        rw [if_neg Bool.false_ne_true]
        have hih := ih (ediPass2Line m c iq (pyStrip l)) N (p + 1) c iq
        refine ⟨?_, ?_, ?_⟩
        · rw [List.chain'_cons']
          refine ⟨?_, hih.1⟩
          intro y hy
          exact le_trans hstep (hih.2.1 y hy)
        · intro x hx
          simp only [List.head?_cons, Option.mem_def, Option.some_inj] at hx
          subst hx
          exact le_refl _
        · intro x hx
          rcases List.mem_cons.mp hx with hx | hx
          · subst hx
            exact second_pass_lb _ _
          · exact hih.2.2 x hx

/-- `load_edi` delivers a monotone raw progress sequence: within each pass
by the counter argument, and across the pass boundary because the first
pass stays at or below fifty percent while the second starts at or above
it. -/
theorem load_edi_progress (m : ContestLogManager) (content : Str) :
    List.Chain' (· ≤ ·) (load_edi m content).2 := by
  rw [load_edi]
  rcases h1 : ediPass1 (pyReadLines content) (pyReadLines content).length 0
      [] false with ⟨comments, ps1⟩
  rcases h2 : ediPass2 m (pyReadLines content)
      (pyReadLines content).length 0 comments false with ⟨m1, ps2⟩
  simp only [h1, h2]
  have hp1 := ediPass1_progress (pyReadLines content)
    (pyReadLines content).length 0 [] false
  rw [h1] at hp1
  have hp2 := ediPass2_progress (pyReadLines content) m
    (pyReadLines content).length 0 comments false
  rw [h2] at hp2
  rw [List.chain'_append]
  refine ⟨hp1.1, hp2.1, ?_⟩
  intro x hx y hy
  have hx50 : x ≤ 50 :=
    hp1.2.2 (by omega) x (List.mem_of_getLast?_eq_some hx)
  have hy50 : (50 : ℚ) ≤ y :=
    hp2.2.2 y (List.mem_of_mem_head? hy)
  linarith

/-- The ADIF loop delivers a monotone progress sequence whose first value
is at least the capped percentage of the incoming byte counter. -/
theorem adifLoop_progress (fuel : Nat) :
    ∀ (m : ContestLogManager) (qsos : Str) (total : ℚ) (processed : Nat),
      0 ≤ total →
      List.Chain' (· ≤ ·) (adifLoop fuel m qsos total processed).2 ∧
      (∀ x ∈ (adifLoop fuel m qsos total processed).2.head?,
        min ((processed : ℚ) / total * 100) 100 ≤ x) := by
  induction fuel with
  | zero =>
    intro m qsos t p ht
    exact ⟨by simp [adifLoop], by simp [adifLoop]⟩
  | succ fuel ih =>
    intro m qsos t p ht
    simp only [adifLoop]
    by_cases hempty : (pyStrip qsos).isEmpty = true
    · simp only [hempty, if_true]
      exact ⟨by simp, by simp⟩
    · have hempty' := Bool.eq_false_iff.mpr hempty
      simp only [hempty']
      rw [if_neg Bool.false_ne_true]
      cases hfind : strFindSub qsos "<EOR>".data with
      | none => exact ⟨by simp, by simp⟩
      | some eor =>
        rcases hrec : adifLoop fuel
            (if (extract_adif_field (pyStrip (qsos.take eor))
                  "CALL".data).isEmpty = true then m
             else add_or_merge_record m
              { callsign := extract_adif_field (pyStrip (qsos.take eor))
                  "CALL".data
                locator := extract_adif_field (pyStrip (qsos.take eor))
                  "GRIDSQUARE".data
                exchange := extract_adif_field (pyStrip (qsos.take eor))
                  "QTH".data
                comment := extract_adif_field (pyStrip (qsos.take eor))
                  "COMMENT".data })
            (pyStrip (qsos.drop (eor + 5))) t (p + eor + 5) with ⟨m2, ps⟩
        have hih := ih
          (if (extract_adif_field (pyStrip (qsos.take eor))
                "CALL".data).isEmpty = true then m
           else add_or_merge_record m
            { callsign := extract_adif_field (pyStrip (qsos.take eor))
                "CALL".data
              locator := extract_adif_field (pyStrip (qsos.take eor))
                "GRIDSQUARE".data
              exchange := extract_adif_field (pyStrip (qsos.take eor))
                "QTH".data
              comment := extract_adif_field (pyStrip (qsos.take eor))
                "COMMENT".data })
          (pyStrip (qsos.drop (eor + 5))) t (p + eor + 5) ht
        rw [hrec] at hih
        simp only [hrec]
        constructor
        · rw [List.chain'_cons']
          refine ⟨?_, hih.1⟩
          intro y hy
          refine le_trans ?_ (hih.2 y hy)
          exact le_refl _
        · intro x hx
          simp only [List.head?_cons, Option.mem_def, Option.some_inj] at hx
          subst hx
          exact min_le_min (nat_div100_mono ht (by omega)) le_rfl

/-- `load_adif` delivers a monotone raw progress sequence. -/
theorem load_adif_progress (m : ContestLogManager) (content : Str) :
    List.Chain' (· ≤ ·) (load_adif m content).2 := by
  rw [load_adif]
  cases hfind : strFindSub (universalNewlines content) "<EOH>".data with
  | none =>
    exact (adifLoop_progress _ m _ _ 0 (by positivity)).1
  | some i =>
    exact (adifLoop_progress _ m _ _ 0 (by positivity)).1

/-- The Minos `iq` fold delivers a monotone progress sequence whose first
value is at least the capped percentage of the incoming counter plus
one. -/
theorem minosLoop_progress (iqs : List XmlNode) :
    ∀ (m : ContestLogManager) (total processed : Nat),
      List.Chain' (· ≤ ·) (minosLoop m iqs total processed).2.1 ∧
      (∀ x ∈ (minosLoop m iqs total processed).2.1.head?,
        min (((processed + 1 : ℕ) : ℚ) / (total : ℚ) * 100) 100 ≤ x) := by
  induction iqs with
  | nil =>
    intro m t p
    exact ⟨by simp [minosLoop], by simp [minosLoop]⟩
  | cons iq rest ih =>
    intro m t p
    simp only [minosLoop]
    have ht : (0 : ℚ) ≤ (t : ℚ) := by positivity
    cases hpi : processIq m iq with
    | error e =>
      refine ⟨by simp, ?_⟩
      intro x hx
      simp only [List.head?_cons, Option.mem_def, Option.some_inj] at hx
      subst hx
      exact le_refl _
    | ok m' =>
      rcases hrec : minosLoop m' rest t (p + 1) with ⟨m2, ps, err⟩
      have hih := ih m' t (p + 1)
      rw [hrec] at hih
      simp only [hrec]
      constructor
      · rw [List.chain'_cons']
        refine ⟨?_, hih.1⟩
        intro y hy
        refine le_trans ?_ (hih.2 y hy)
        exact min_le_min (nat_div100_mono ht (by omega)) le_rfl
      · intro x hx
        simp only [List.head?_cons, Option.mem_def, Option.some_inj] at hx
        subst hx
        exact le_refl _

/-- `load_minos` delivers a monotone raw progress sequence. -/
theorem load_minos_progress (m : ContestLogManager) (content : Str)
    (xmlParse : Option XmlNode) :
    List.Chain' (· ≤ ·) (load_minos m content xmlParse).2.1 := by
  rw [load_minos.eq_def]
  cases hstream : strFindSub content "<stream:stream".data with
  | none => simp
  | some k =>
    cases xmlParse with
    | none => simp
    | some root =>
      simp only
      by_cases hlen :
          ((root.descendants.filter
            (fun n => n.tag == nsClient ++ "iq".data)).length == 0) = true
      · simp [hlen]
      · have hlen' := Bool.eq_false_iff.mpr hlen
        simp only [hlen']
        rw [if_neg Bool.false_ne_true]
        exact (minosLoop_progress _ m _ 0).1

/-- The dispatch delivers a monotone raw progress sequence whichever
parser runs. -/
theorem dispatchLoad_progress (m : ContestLogManager) (f : FileModel)
    (extension : Str) :
    List.Chain' (· ≤ ·) (dispatchLoad m f extension).2.1 := by
  rw [dispatchLoad]
  by_cases hcsl : (extension == ".csl".data) = true
  · simp only [hcsl, if_true]
    exact load_csl_progress m f.content
  · have hcsl' := Bool.eq_false_iff.mpr hcsl
    simp only [hcsl']
    rw [if_neg Bool.false_ne_true]
    by_cases hedi : (extension == ".edi".data) = true
    · simp only [hedi, if_true]
      exact load_edi_progress m f.content
    · have hedi' := Bool.eq_false_iff.mpr hedi
      simp only [hedi']
      rw [if_neg Bool.false_ne_true]
      by_cases hadi :
          ((extension == ".adi".data) || (extension == ".adif".data)) = true
      · simp only [hadi, if_true]
        exact load_adif_progress m f.content
      · have hadi' := Bool.eq_false_iff.mpr hadi
        simp only [hadi']
        rw [if_neg Bool.false_ne_true]
        exact load_minos_progress m f.content f.xmlParse

/-- Claim C9: on every load, of any of the four formats, the sequence of
values delivered to the progress sink is monotonically non-decreasing,
and every delivered value lies in `[0, 100]` because `load_file` clamps
each computed value with `bounded_progress` before delivery. -/
theorem load_progress_monotone_and_bounded (m : ContestLogManager)
    (f : FileModel) :
    List.Chain' (· ≤ ·) (load_file m f).2.1 ∧
    ∀ x ∈ (load_file m f).2.1, 0 ≤ x ∧ x ≤ 100 := by
  rw [load_file]
  cases hex : f.pathExists with
  | false => simp
  | true =>
    simp only [hex, Bool.not_true] at *
    rw [if_neg Bool.false_ne_true]
    by_cases hsup :
        (SUPPORTED_FORMATS.any
          (fun x => x == pyLower (pySuffix f.path))) = true
    · simp only [hsup, Bool.not_true]
      rw [if_neg Bool.false_ne_true]
      have hchain := chain_map_boundedProgress
        (dispatchLoad_progress m f (pyLower (pySuffix f.path)))
      have hbound : ∀ x ∈ (dispatchLoad m f
            (pyLower (pySuffix f.path))).2.1.map boundedProgress,
          0 ≤ x ∧ x ≤ 100 := by
        intro x hx
        rcases List.mem_map.mp hx with ⟨y, _, hxy⟩
        subst hxy
        exact boundedProgress_bounds y
      cases hdis :
          (dispatchLoad m f (pyLower (pySuffix f.path))).2.2 with
      | none =>
        simp only [hdis]
        exact ⟨hchain, hbound⟩
      | some e =>
        simp only [hdis]
        exact ⟨hchain, hbound⟩
    · have hsup' := Bool.eq_false_iff.mpr hsup
      simp [hsup']

/-- Witness for C9 on a concrete EDI load. -/
theorem load_progress_monotone_and_bounded_witness :
    List.Chain' (· ≤ ·)
      (load_file initManager
        ⟨true, "a.edi".data,
          "[QSORecords;1]\na;b;G4CTP;d;e;f;g;h;59001;IO91AA\n".data,
          none⟩).2.1 ∧
    ∀ x ∈ (load_file initManager
        ⟨true, "a.edi".data,
          "[QSORecords;1]\na;b;G4CTP;d;e;f;g;h;59001;IO91AA\n".data,
          none⟩).2.1, 0 ≤ x ∧ x ≤ 100 :=
  load_progress_monotone_and_bounded initManager
    ⟨true, "a.edi".data,
      "[QSORecords;1]\na;b;G4CTP;d;e;f;g;h;59001;IO91AA\n".data, none⟩

/-- Claim C1 (failing input): the writer emits two `#`-prefixed header
lines, but `load_csl` discards only the first row, so saving an *empty*
store and reloading the file into an empty Keep-All engine (filter off)
ingests the column-legend line as a record: the round trip returns one
record instead of zero, refuting "both header lines are ignored on read
and produce no records". -/
theorem csl_roundtrip_header_line_bug :
    initManager.records = [] ∧
    (load_csl initManager (save_csl_content initManager)).2.2 = none ∧
    (load_csl initManager (save_csl_content initManager)).1.records
      = [⟨"# <Callsign>".data, "<Locator>".data, "<Exchange>".data,
          "<Comment>".data⟩] :=
  ⟨rfl, by decide, by decide⟩

